import Mathlib

/-!
Verification of the chunk-size normalization and content-filtering pipeline
of the Luma_RAG repository (file `src/embedding.py`).

Texts are modelled as lists of characters (`Text`).  The tokenizer is an
external collaborator, so every pipeline function is parameterized by an
abstract token-counting function `tc : Text → Nat`.

Python's float comparisons `ratio > 0.3` and `ratio > 0.7` are modelled by
the exact rational comparisons (cross-multiplied to stay in `Nat`); for the
integer numerators and denominators that occur here the double-precision
comparison and the exact rational comparison agree.  Python's
`ZeroDivisionError` is modelled by `Option`: `is_content_meaningful`
returns `none` exactly when the source would raise.
-/

namespace LumaRAG

/-- Text is modelled as a list of characters. -/
abbrev Text := List Char

/-- Configuration constant `MIN_CHUNK_SIZE = 100` from `embedding.py`. -/
def MIN_CHUNK_SIZE : Nat := 100

/-- Configuration constant `OPTIMAL_CHUNK_SIZE = 512` from `embedding.py`. -/
def OPTIMAL_CHUNK_SIZE : Nat := 512

/-- Configuration constant `MAX_CHUNK_SIZE = 800` from `embedding.py`. -/
def MAX_CHUNK_SIZE : Nat := 800

/-- The characters removed by Python's `str.strip()` (ASCII whitespace). -/
def isPyWs (c : Char) : Bool :=
  c == ' ' || c == '\t' || c == '\n' || c == '\r' || c == '\x0b' || c == '\x0c'

/-- Drop leading Python whitespace. -/
def stripLeft (s : Text) : Text := s.dropWhile isPyWs

/-- Python's `str.strip()`: drop leading and trailing whitespace. -/
def pyStrip (s : Text) : Text := (stripLeft (stripLeft s).reverse).reverse

/-- Python's `needle in hay` prefix helper: does `hay` start with `needle`? -/
def isPrefTxt : Text → Text → Bool
  | [], _ => true
  | _ :: _, [] => false
  | a :: as, b :: bs => a == b && isPrefTxt as bs

/-- Python's substring test `needle in hay`. -/
def isSubTxt (needle : Text) : Text → Bool
  | [] => needle.isEmpty
  | c :: t => isPrefTxt needle (c :: t) || isSubTxt needle t

/-- Python's `text.count(c)` for a single character `c`. -/
def countCh (c : Char) (s : Text) : Nat := (s.filter (fun x => x == c)).length

/-- Single-character membership, Python's `c in text`. -/
def containsCh (s : Text) (c : Char) : Bool := s.any (fun x => x == c)

/-- The `toc_indicators` list from `is_content_meaningful`. -/
def toc_indicators : List Text :=
  [ ['t','a','b','l','e',' ','o','f',' ','c','o','n','t','e','n','t','s'],
    ['c','o','n','t','e','n','t','s'],
    ['c','h','a','p','t','e','r'],
    ['p','a','g','e'],
    ['i','n','d','e','x'],
    ['a','p','p','e','n','d','i','x'],
    ['b','i','b','l','i','o','g','r','a','p','h','y'],
    ['r','e','f','e','r','e','n','c','e','s'] ]

/-- The `sentence_indicators` list from `is_content_meaningful`. -/
def sentence_indicators : List Char := ['.', '!', '?', ';', ':']

/-- Embedding of `is_content_meaningful` (embedding.py lines 60-92).
`text_lower = text.lower().strip()`; reject when the lowered-stripped text is
shorter than 50 characters, when its (re-)stripped form has at most 2
characters, when more than 30 percent of the 8 keyword phrases occur in it,
when more than 70 percent of the raw text is tab/newline/space, and accept
otherwise iff some sentence punctuation occurs.  The division
`formatting_chars / len(text)` raises in Python when `len(text) = 0`, which
is modelled by `none`. -/
def is_content_meaningful (text : Text) : Option Bool :=
  let text_lower := pyStrip (text.map Char.toLower)
  if text_lower.length < 50 then some false
  else if (pyStrip text_lower).length ≤ 2 then some false
  else if 3 * toc_indicators.length <
      10 * (toc_indicators.filter (fun ind => isSubTxt ind text_lower)).length then
    some false
  else
    let formatting_chars := countCh '\t' text + countCh '\n' text + countCh ' ' text
    if text.length = 0 then none
    else if 7 * text.length < 10 * formatting_chars then some false
    else some (sentence_indicators.any (fun p => containsCh text p))

/-- Python's `text.split(". ")` (embedding.py line 186): split on the
two-character delimiter, keeping empty fragments, never returning an empty
list. -/
def splitOnDS : Text → List Text
  | [] => [[]]
  | '.' :: ' ' :: rest => [] :: splitOnDS rest
  | c :: rest =>
    match splitOnDS rest with
    | [] => [[c]]
    | h :: t => (c :: h) :: t

/-- Python's `sentence.endswith(".")`. -/
def endsWithDot (s : Text) : Bool := decide (s.getLast? = some '.')

/-- Embedding of lines 191-197 of `split_large_chunk`: strip the fragment,
then append a period when the stripped fragment does not already end with
`'.'` and is not equal to the raw last element of the split list. -/
def normalizeSentence (last : Text) (raw : Text) : Text :=
  let s := pyStrip raw
  if endsWithDot s = false ∧ s ≠ last then s ++ ['.'] else s

/-- One iteration of the `for sentence in sentences` loop of
`split_large_chunk` (embedding.py lines 190-209), acting on the state
`(chunks, current_chunk)`. -/
def slcStep (tc : Text → Nat) (last : Text) (acc : List Text × Text) (raw : Text) :
    List Text × Text :=
  if pyStrip raw = [] then acc
  else
    let s := normalizeSentence last raw
    let test := if acc.2 = [] then s else acc.2 ++ ' ' :: s
    if tc test ≤ OPTIMAL_CHUNK_SIZE then (acc.1, test)
    else if acc.2 ≠ [] ∧ MIN_CHUNK_SIZE ≤ tc acc.2 then (acc.1 ++ [pyStrip acc.2], s)
    else (acc.1, s)

/-- Embedding of `split_large_chunk` (embedding.py lines 184-216). -/
def split_large_chunk (tc : Text → Nat) (text : Text) : List Text :=
  let sentences := splitOnDS text
  let r := sentences.foldl (slcStep tc (sentences.getLastD [])) ([], [])
  if r.2 ≠ [] ∧ MIN_CHUNK_SIZE ≤ tc r.2 then r.1 ++ [pyStrip r.2] else r.1

/-- The list of processed (stripped, period-fixed) nonempty fragments that
the `split_large_chunk` loop iterates over, in order. -/
def processedOf (sentences : List Text) : List Text :=
  (sentences.filter (fun raw => pyStrip raw ≠ [])).map
    (normalizeSentence (sentences.getLastD []))

/-- The processed fragments of a text, as produced inside
`split_large_chunk`. -/
def processedSentences (text : Text) : List Text := processedOf (splitOnDS text)

/-- One iteration of the `for i, chunk in enumerate(chunks)` loop of
`merge_small_chunks` (embedding.py lines 108-171), acting on the state
`(optimized_chunks, current_merged_content, current_token_count)`. -/
def mscStep (tc : Text → Nat) (acc : List Text × Text × Nat) (chunk : Text) :
    List Text × Text × Nat :=
  if ¬ (is_content_meaningful chunk = some true) then acc
  else if MIN_CHUNK_SIZE ≤ tc chunk ∧ tc chunk ≤ MAX_CHUNK_SIZE then
    ((if acc.2.1 ≠ [] ∧ MIN_CHUNK_SIZE ≤ acc.2.2 then acc.1 ++ [pyStrip acc.2.1] else acc.1)
      ++ [chunk], [], 0)
  else if tc chunk < MIN_CHUNK_SIZE then
    if OPTIMAL_CHUNK_SIZE ≤ acc.2.2 + tc chunk then
      (acc.1 ++ [pyStrip (if acc.2.1 = [] then chunk else acc.2.1 ++ ' ' :: chunk)], [], 0)
    else (acc.1, (if acc.2.1 = [] then chunk else acc.2.1 ++ ' ' :: chunk), acc.2.2 + tc chunk)
  else
    ((if acc.2.1 ≠ [] ∧ MIN_CHUNK_SIZE ≤ acc.2.2 then acc.1 ++ [pyStrip acc.2.1] else acc.1)
      ++ split_large_chunk tc chunk, [], 0)

/-- The loop of `merge_small_chunks` as a fold from the empty state. -/
def mscFold (tc : Text → Nat) (chunks : List Text) : List Text × Text × Nat :=
  chunks.foldl (mscStep tc) ([], [], 0)

/-- Embedding of `merge_small_chunks` (embedding.py lines 94-182). -/
def merge_small_chunks (tc : Text → Nat) (chunks : List Text) : List Text :=
  if chunks = [] then chunks
  else
    let r := mscFold tc chunks
    if r.2.1 ≠ [] ∧ MIN_CHUNK_SIZE ≤ r.2.2 then r.1 ++ [pyStrip r.2.1] else r.1

/-- The buffer component of one `merge_small_chunks` loop iteration. -/
def stepBuf (tc : Text → Nat) (b : Text × Nat) (chunk : Text) : Text × Nat :=
  if ¬ (is_content_meaningful chunk = some true) then b
  else if MIN_CHUNK_SIZE ≤ tc chunk ∧ tc chunk ≤ MAX_CHUNK_SIZE then ([], 0)
  else if tc chunk < MIN_CHUNK_SIZE then
    if OPTIMAL_CHUNK_SIZE ≤ b.2 + tc chunk then ([], 0)
    else ((if b.1 = [] then chunk else b.1 ++ ' ' :: chunk), b.2 + tc chunk)
  else ([], 0)

/-- The chunks emitted during one `merge_small_chunks` loop iteration, in
emission order. -/
def stepOut (tc : Text → Nat) (b : Text × Nat) (chunk : Text) : List Text :=
  if ¬ (is_content_meaningful chunk = some true) then []
  else if MIN_CHUNK_SIZE ≤ tc chunk ∧ tc chunk ≤ MAX_CHUNK_SIZE then
    (if b.1 ≠ [] ∧ MIN_CHUNK_SIZE ≤ b.2 then [pyStrip b.1] else []) ++ [chunk]
  else if tc chunk < MIN_CHUNK_SIZE then
    if OPTIMAL_CHUNK_SIZE ≤ b.2 + tc chunk then
      [pyStrip (if b.1 = [] then chunk else b.1 ++ ' ' :: chunk)]
    else []
  else
    (if b.1 ≠ [] ∧ MIN_CHUNK_SIZE ≤ b.2 then [pyStrip b.1] else []) ++
      split_large_chunk tc chunk

/-- Specification-side emission order: the chunks emitted while processing
each input segment, concatenated in input order, followed by the
end-of-stream flush of the final buffer. -/
def emitAll (tc : Text → Nat) (b : Text × Nat) : List Text → List Text
  | [] => if b.1 ≠ [] ∧ MIN_CHUNK_SIZE ≤ b.2 then [pyStrip b.1] else []
  | c :: cs => stepOut tc b c ++ emitAll tc (stepBuf tc b c) cs

/-- The meaningful standalone-sized segments of the input, in input
order. -/
def survivors (tc : Text → Nat) (chunks : List Text) : List Text :=
  chunks.filter (fun c => decide (is_content_meaningful c = some true ∧
    MIN_CHUNK_SIZE ≤ tc c ∧ tc c ≤ MAX_CHUNK_SIZE))

/-! ### Concrete token counters and texts used to instantiate the theorems

The pipeline is parameterized by an abstract tokenizer; the instances below
are concrete counters used to evaluate the theorems on concrete inputs. -/

/-- A concrete token counter: each letter `q` counts 5 tokens and each
letter `Q` counts 450 tokens. -/
def tcQ : Text → Nat := fun s => 450 * countCh 'Q' s + 5 * countCh 'q' s

/-- A concrete token counter: the number of letters `q`. -/
def tokensByQ : Text → Nat := countCh 'q'

/-- A meaningful text with `tcQ` count 30 (51 characters, 6 `q`). -/
def textTok30 : Text := List.replicate 6 'q' ++ List.replicate 44 'b' ++ ['.']

/-- A meaningful text with `tcQ` count 45 (51 characters, 9 `q`). -/
def textTok45 : Text := List.replicate 9 'q' ++ List.replicate 41 'e' ++ ['.']

/-- A meaningful text with `tcQ` count 550 (one `Q`, twenty `q`). -/
def textTok550 : Text :=
  ['Q'] ++ List.replicate 20 'q' ++ List.replicate 30 'c' ++ ['.']

/-- A meaningful text with `tcQ` count 60 (twelve `q`). -/
def textTok60 : Text := List.replicate 12 'q' ++ List.replicate 38 'f' ++ ['.']

/-- A meaningful text with `tcQ` count 80 (sixteen `q`). -/
def textTok80 : Text := List.replicate 16 'q' ++ List.replicate 34 'g' ++ ['.']

/-- A meaningful text with `tcQ` count 900 (two `Q`). -/
def textTok900 : Text := ['Q', 'Q'] ++ List.replicate 49 'd' ++ ['.']

/-- A meaningful text with `tokensByQ` count 100 (one hundred `q`). -/
def textHundredQ : Text := List.replicate 100 'q' ++ ['.']

/-- A short text rejected by the meaningfulness filter. -/
def shortText : Text := ['h', 'i']

/-! ### Helper lemmas about stripping and filtering -/

theorem filter_stripLeft (p : Char → Bool) (hp : ∀ x, isPyWs x = true → p x = false) :
    ∀ s : Text, (stripLeft s).filter p = s.filter p := by
  intro s
  induction s with
  | nil => rfl
  | cons c t ih =>
    by_cases h : isPyWs c = true
    · rw [stripLeft, List.dropWhile_cons, if_pos h, List.filter_cons, hp c h]
      exact ih
    · rw [stripLeft, List.dropWhile_cons, if_neg h]

theorem filter_pyStrip (p : Char → Bool) (hp : ∀ x, isPyWs x = true → p x = false)
    (s : Text) : (pyStrip s).filter p = s.filter p := by
  unfold pyStrip
  rw [List.filter_reverse, filter_stripLeft p hp, List.filter_reverse,
    filter_stripLeft p hp, List.reverse_reverse]

theorem length_stripLeft_le (s : Text) : (stripLeft s).length ≤ s.length := by
  induction s with
  | nil => exact Nat.le_refl _
  | cons c t ih =>
    rw [stripLeft, List.dropWhile_cons]
    by_cases h : isPyWs c = true
    · rw [if_pos h]
      exact Nat.le_trans ih (Nat.le_succ _)
    · rw [if_neg h]

theorem length_pyStrip_le (s : Text) : (pyStrip s).length ≤ s.length := by
  unfold pyStrip
  rw [List.length_reverse]
  calc (stripLeft (stripLeft s).reverse).length
      ≤ (stripLeft s).reverse.length := length_stripLeft_le _
    _ = (stripLeft s).length := List.length_reverse _
    _ ≤ s.length := length_stripLeft_le _

/-- A chunk accepted by the meaningfulness filter is nonempty. -/
theorem meaningful_ne_nil {s : Text} (h : is_content_meaningful s = some true) : s ≠ [] := by
  intro hnil
  subst hnil
  exact absurd h (by decide)

/-! ### Branch lemmas for the merge loop body -/

theorem mscStep_skip (tc : Text → Nat) (acc : List Text × Text × Nat) (chunk : Text)
    (h : ¬ (is_content_meaningful chunk = some true)) : mscStep tc acc chunk = acc := by
  rw [mscStep, if_pos h]

theorem mscStep_standalone (tc : Text → Nat) (out : List Text) (cur : Text) (ctok : Nat)
    (chunk : Text) (h : is_content_meaningful chunk = some true)
    (h1 : MIN_CHUNK_SIZE ≤ tc chunk) (h2 : tc chunk ≤ MAX_CHUNK_SIZE) :
    mscStep tc (out, cur, ctok) chunk =
      ((if cur ≠ [] ∧ MIN_CHUNK_SIZE ≤ ctok then out ++ [pyStrip cur] else out) ++ [chunk],
        [], 0) := by
  rw [mscStep, if_neg (by simp [h]), if_pos ⟨h1, h2⟩]

theorem mscStep_undersized (tc : Text → Nat) (out : List Text) (cur : Text) (ctok : Nat)
    (chunk : Text) (h : is_content_meaningful chunk = some true)
    (h1 : tc chunk < MIN_CHUNK_SIZE) :
    mscStep tc (out, cur, ctok) chunk =
      if OPTIMAL_CHUNK_SIZE ≤ ctok + tc chunk then
        (out ++ [pyStrip (if cur = [] then chunk else cur ++ ' ' :: chunk)], [], 0)
      else (out, (if cur = [] then chunk else cur ++ ' ' :: chunk), ctok + tc chunk) := by
  rw [mscStep, if_neg (by simp [h]),
    if_neg (fun hc => absurd h1 (Nat.not_lt.mpr hc.1)), if_pos h1]

theorem mscStep_oversized (tc : Text → Nat) (out : List Text) (cur : Text) (ctok : Nat)
    (chunk : Text) (h : is_content_meaningful chunk = some true)
    (h1 : MAX_CHUNK_SIZE < tc chunk) :
    mscStep tc (out, cur, ctok) chunk =
      ((if cur ≠ [] ∧ MIN_CHUNK_SIZE ≤ ctok then out ++ [pyStrip cur] else out)
        ++ split_large_chunk tc chunk, [], 0) := by
  have hmm : MIN_CHUNK_SIZE ≤ MAX_CHUNK_SIZE := by decide
  rw [mscStep, if_neg (by simp [h]),
    if_neg (fun hc => absurd h1 (Nat.not_lt.mpr hc.2)),
    if_neg (by omega)]

/-- The loop of `merge_small_chunks` keeps the buffer token counter at zero
whenever the buffer text is empty. -/
theorem msc_buf_inv (tc : Text → Nat) (cs : List Text) :
    ∀ (out : List Text) (cur : Text) (ctok : Nat), (cur = [] → ctok = 0) →
      ((cs.foldl (mscStep tc) (out, cur, ctok)).2.1 = [] →
        (cs.foldl (mscStep tc) (out, cur, ctok)).2.2 = 0) := by
  induction cs with
  | nil => intro out cur ctok h; simpa using h
  | cons c rest ih =>
    intro out cur ctok h
    rw [List.foldl_cons]
    by_cases hm : is_content_meaningful c = some true
    · by_cases h1 : MIN_CHUNK_SIZE ≤ tc c ∧ tc c ≤ MAX_CHUNK_SIZE
      · rw [mscStep_standalone tc out cur ctok c hm h1.1 h1.2]
        exact ih _ _ _ (fun _ => rfl)
      · by_cases h2 : tc c < MIN_CHUNK_SIZE
        · rw [mscStep_undersized tc out cur ctok c hm h2]
          by_cases h3 : OPTIMAL_CHUNK_SIZE ≤ ctok + tc c
          · rw [if_pos h3]
            exact ih _ _ _ (fun _ => rfl)
          · rw [if_neg h3]
            refine ih _ _ _ (fun h0 => ?_)
            by_cases hcur : cur = []
            · rw [if_pos hcur] at h0
              exact absurd h0 (meaningful_ne_nil hm)
            · rw [if_neg hcur] at h0
              exact absurd h0 (by simp)
        · have h4 : MAX_CHUNK_SIZE < tc c := by
            have hmm : MIN_CHUNK_SIZE ≤ MAX_CHUNK_SIZE := by decide
            omega
          rw [mscStep_oversized tc out cur ctok c hm h4]
          exact ih _ _ _ (fun _ => rfl)
    · rw [mscStep_skip tc _ c hm]
      exact ih out cur ctok h

/-- Claim C1: when an oversized segment (token count above
`MAX_CHUNK_SIZE`) is reached, the merge buffer is flushed as one chunk
before the split exactly when it holds at least `MIN_CHUNK_SIZE` tokens,
and in all cases the buffer is reset to empty afterwards. -/
theorem claim_C1 (tc : Text → Nat) (out : List Text) (cur : Text) (ctok : Nat)
    (chunk : Text) (hbuf : cur = [] → ctok = 0)
    (h : is_content_meaningful chunk = some true) (h1 : MAX_CHUNK_SIZE < tc chunk) :
    mscStep tc (out, cur, ctok) chunk =
      ((if MIN_CHUNK_SIZE ≤ ctok then out ++ [pyStrip cur] else out)
        ++ split_large_chunk tc chunk, [], 0) := by
  by_cases hc : MIN_CHUNK_SIZE ≤ ctok
  · have hne : cur ≠ [] := by
      intro he
      have h0 := hbuf he
      rw [h0] at hc
      exact absurd hc (by decide)
    rw [mscStep_oversized tc out cur ctok chunk h h1, if_pos ⟨hne, hc⟩, if_pos hc]
  · rw [mscStep_oversized tc out cur ctok chunk h h1, if_neg (fun hx => hc hx.2),
      if_neg hc]

/-- Witness for Claim C1: a concrete oversized segment with an empty buffer
is split and the buffer stays empty. -/
theorem claim_C1_witness :
    mscStep tcQ ([], [], 0) textTok900 = (split_large_chunk tcQ textTok900, [], 0) := by
  rw [claim_C1 tcQ [] [] 0 textTok900 (fun _ => rfl) (by decide) (by decide),
    if_neg (by decide), List.nil_append]

/-- Claim C7: a meaningful undersized segment is appended to the merge
buffer (space-joined) with its token count added to the counter, and the
buffer is flushed and reset exactly when the counter reaches
`OPTIMAL_CHUNK_SIZE`.  In particular (Scenario C) seven consecutive
meaningful 80-token segments cause exactly one flush, at accumulated count
560, as a single merged chunk. -/
theorem claim_C7 :
    (∀ (tc : Text → Nat) (out : List Text) (cur : Text) (ctok : Nat) (chunk : Text),
      is_content_meaningful chunk = some true → tc chunk < MIN_CHUNK_SIZE →
      mscStep tc (out, cur, ctok) chunk =
        if OPTIMAL_CHUNK_SIZE ≤ ctok + tc chunk then
          (out ++ [pyStrip (if cur = [] then chunk else cur ++ ' ' :: chunk)], [], 0)
        else (out, (if cur = [] then chunk else cur ++ ' ' :: chunk), ctok + tc chunk)) ∧
    (∀ (tc : Text → Nat) (s1 s2 s3 s4 s5 s6 s7 : Text),
      (∀ s ∈ [s1, s2, s3, s4, s5, s6, s7],
        is_content_meaningful s = some true ∧ tc s = 80) →
      merge_small_chunks tc [s1, s2, s3, s4, s5, s6, s7] =
        [pyStrip (s1 ++ ' ' :: s2 ++ ' ' :: s3 ++ ' ' :: s4 ++ ' ' :: s5 ++ ' ' :: s6
          ++ ' ' :: s7)]) := by
  constructor
  · intro tc out cur ctok chunk h h1
    exact mscStep_undersized tc out cur ctok chunk h h1
  · intro tc s1 s2 s3 s4 s5 s6 s7 h
    have h1 := h s1 (by simp)
    have h2 := h s2 (by simp)
    have h3 := h s3 (by simp)
    have h4 := h s4 (by simp)
    have h5 := h s5 (by simp)
    have h6 := h s6 (by simp)
    have h7 := h s7 (by simp)
    rw [merge_small_chunks, if_neg (by simp), mscFold]
    rw [List.foldl_cons, mscStep_undersized tc [] [] 0 s1 h1.1 (by rw [h1.2]; decide),
      h1.2, if_neg (show ¬ OPTIMAL_CHUNK_SIZE ≤ 0 + 80 by decide), if_pos rfl]
    rw [List.foldl_cons,
      mscStep_undersized tc [] s1 (0 + 80) s2 h2.1 (by rw [h2.2]; decide),
      h2.2, if_neg (show ¬ OPTIMAL_CHUNK_SIZE ≤ 0 + 80 + 80 by decide),
      if_neg (meaningful_ne_nil h1.1)]
    rw [List.foldl_cons,
      mscStep_undersized tc [] (s1 ++ ' ' :: s2) (0 + 80 + 80) s3 h3.1
        (by rw [h3.2]; decide),
      h3.2, if_neg (show ¬ OPTIMAL_CHUNK_SIZE ≤ 0 + 80 + 80 + 80 by decide),
      if_neg (show ¬ (s1 ++ ' ' :: s2 = []) by simp)]
    rw [List.foldl_cons,
      mscStep_undersized tc [] ((s1 ++ ' ' :: s2) ++ ' ' :: s3) (0 + 80 + 80 + 80) s4
        h4.1 (by rw [h4.2]; decide),
      h4.2, if_neg (show ¬ OPTIMAL_CHUNK_SIZE ≤ 0 + 80 + 80 + 80 + 80 by decide),
      if_neg (show ¬ ((s1 ++ ' ' :: s2) ++ ' ' :: s3 = []) by simp)]
    rw [List.foldl_cons,
      mscStep_undersized tc [] (((s1 ++ ' ' :: s2) ++ ' ' :: s3) ++ ' ' :: s4)
        (0 + 80 + 80 + 80 + 80) s5 h5.1 (by rw [h5.2]; decide),
      h5.2, if_neg (show ¬ OPTIMAL_CHUNK_SIZE ≤ 0 + 80 + 80 + 80 + 80 + 80 by decide),
      if_neg (show ¬ (((s1 ++ ' ' :: s2) ++ ' ' :: s3) ++ ' ' :: s4 = []) by simp)]
    rw [List.foldl_cons,
      mscStep_undersized tc [] ((((s1 ++ ' ' :: s2) ++ ' ' :: s3) ++ ' ' :: s4)
        ++ ' ' :: s5) (0 + 80 + 80 + 80 + 80 + 80) s6 h6.1 (by rw [h6.2]; decide),
      h6.2,
      if_neg (show ¬ OPTIMAL_CHUNK_SIZE ≤ 0 + 80 + 80 + 80 + 80 + 80 + 80 by decide),
      if_neg (show ¬ ((((s1 ++ ' ' :: s2) ++ ' ' :: s3) ++ ' ' :: s4) ++ ' ' :: s5 = [])
        by simp)]
    rw [List.foldl_cons,
      mscStep_undersized tc [] (((((s1 ++ ' ' :: s2) ++ ' ' :: s3) ++ ' ' :: s4)
        ++ ' ' :: s5) ++ ' ' :: s6) (0 + 80 + 80 + 80 + 80 + 80 + 80) s7 h7.1
        (by rw [h7.2]; decide),
      h7.2,
      if_pos (show OPTIMAL_CHUNK_SIZE ≤ 0 + 80 + 80 + 80 + 80 + 80 + 80 + 80 by decide),
      if_neg (show ¬ (((((s1 ++ ' ' :: s2) ++ ' ' :: s3) ++ ' ' :: s4) ++ ' ' :: s5)
        ++ ' ' :: s6 = []) by simp)]
    rw [List.foldl_nil, if_neg (show ¬ (([] : Text) ≠ [] ∧ MIN_CHUNK_SIZE ≤ 0)
      from fun hc => hc.1 rfl)]
    simp [List.append_assoc]

/-- Witness for Claim C7: seven concrete 80-token segments merge into a
single flushed chunk. -/
theorem claim_C7_witness :
    merge_small_chunks tcQ
        [textTok80, textTok80, textTok80, textTok80, textTok80, textTok80, textTok80] =
      [pyStrip (textTok80 ++ ' ' :: textTok80 ++ ' ' :: textTok80 ++ ' ' :: textTok80
        ++ ' ' :: textTok80 ++ ' ' :: textTok80 ++ ' ' :: textTok80)] := by
  refine claim_C7.2 tcQ _ _ _ _ _ _ _ ?_
  intro s hs
  simp only [List.mem_cons, List.not_mem_nil, or_false] at hs
  rcases hs with h | h | h | h | h | h | h <;> subst h <;>
    exact ⟨by decide, by decide⟩

/-- Claim C6: after the last segment is processed, the merge buffer is
emitted as one final chunk if and only if its token count is at least
`MIN_CHUNK_SIZE`; otherwise its contents are discarded.  In particular
(Scenario A) two meaningful undersized segments with token counts 30 and 45
yield an empty output sequence. -/
theorem claim_C6 :
    (∀ (tc : Text → Nat) (chunks : List Text),
      merge_small_chunks tc chunks =
        (mscFold tc chunks).1 ++
          (if MIN_CHUNK_SIZE ≤ (mscFold tc chunks).2.2
            then [pyStrip (mscFold tc chunks).2.1] else [])) ∧
    (∀ (tc : Text → Nat) (s1 s2 : Text),
      is_content_meaningful s1 = some true → is_content_meaningful s2 = some true →
      tc s1 = 30 → tc s2 = 45 → merge_small_chunks tc [s1, s2] = []) := by
  constructor
  · intro tc chunks
    by_cases hnil : chunks = []
    · subst hnil
      simp [merge_small_chunks, mscFold, MIN_CHUNK_SIZE]
    · rw [merge_small_chunks, if_neg hnil]
      have hinv := msc_buf_inv tc chunks [] [] 0 (fun _ => rfl)
      by_cases hflush : MIN_CHUNK_SIZE ≤ (mscFold tc chunks).2.2
      · have hne : (mscFold tc chunks).2.1 ≠ [] := by
          intro he
          have h0 := hinv he
          rw [mscFold] at hflush
          rw [h0] at hflush
          exact absurd hflush (by decide)
        rw [if_pos ⟨hne, hflush⟩, if_pos hflush]
      · rw [if_neg (fun hc => hflush hc.2), if_neg hflush, List.append_nil]
  · intro tc s1 s2 h1 h2 ht1 ht2
    have hne1 := meaningful_ne_nil h1
    rw [merge_small_chunks, if_neg (by simp), mscFold, List.foldl_cons,
      mscStep_undersized tc [] [] 0 s1 h1 (by rw [ht1]; decide), ht1,
      if_neg (show ¬ OPTIMAL_CHUNK_SIZE ≤ 0 + 30 by decide), if_pos rfl,
      List.foldl_cons,
      mscStep_undersized tc [] s1 (0 + 30) s2 h2 (by rw [ht2]; decide), ht2,
      if_neg (show ¬ OPTIMAL_CHUNK_SIZE ≤ 0 + 30 + 45 by decide), if_neg hne1,
      List.foldl_nil,
      if_neg (show ¬ ((s1 ++ ' ' :: s2) ≠ [] ∧ MIN_CHUNK_SIZE ≤ 0 + 30 + 45) from
        fun hc => absurd hc.2 (by decide))]

/-- Witness for Claim C6: a concrete Scenario A instance evaluates to the
empty output. -/
theorem claim_C6_witness :
    merge_small_chunks tcQ [textTok30, textTok45] = [] :=
  claim_C6.2 tcQ textTok30 textTok45 (by decide) (by decide) (by decide) (by decide)

/-- The merge loop maps a sequence of standalone-sized meaningful segments
starting from an empty buffer to itself, appended to the output. -/
theorem msc_fold_optimal (tc : Text → Nat) (cs : List Text)
    (h : ∀ c ∈ cs, is_content_meaningful c = some true ∧
      MIN_CHUNK_SIZE ≤ tc c ∧ tc c ≤ MAX_CHUNK_SIZE) :
    ∀ out : List Text, cs.foldl (mscStep tc) (out, [], 0) = (out ++ cs, [], 0) := by
  induction cs with
  | nil => intro out; simp
  | cons c rest ih =>
    intro out
    have hc := h c (by simp)
    rw [List.foldl_cons, mscStep_standalone tc out [] 0 c hc.1 hc.2.1 hc.2.2,
      if_neg (fun hx => hx.1 rfl),
      ih (fun d hd => h d (by simp [hd])) (out ++ [c])]
    simp

/-- Claim C8: on a sequence in which every segment passes the filter and is
standalone-sized, `merge_small_chunks` is the identity. -/
theorem claim_C8 (tc : Text → Nat) (chunks : List Text)
    (h : ∀ c ∈ chunks, is_content_meaningful c = some true ∧
      MIN_CHUNK_SIZE ≤ tc c ∧ tc c ≤ MAX_CHUNK_SIZE) :
    merge_small_chunks tc chunks = chunks := by
  by_cases hnil : chunks = []
  · subst hnil; rfl
  · rw [merge_small_chunks, if_neg hnil, mscFold, msc_fold_optimal tc chunks h [],
      if_neg (fun hx => hx.1 rfl)]
    simp

/-- Witness for Claim C8: a concrete standalone-sized segment passes through
unchanged. -/
theorem claim_C8_witness : merge_small_chunks tcQ [textTok550] = [textTok550] :=
  claim_C8 tcQ [textTok550] (by
    intro c hc
    simp only [List.mem_cons, List.not_mem_nil, or_false] at hc
    subst hc
    exact ⟨by decide, by decide, by decide⟩)

/-- The sentence-punctuation test of `is_content_meaningful` is false
exactly when none of the five punctuation characters occurs in the text. -/
theorem noPunct_iff {text : Text} :
    (sentence_indicators.any (fun p => containsCh text p) = false) ↔
      ∀ p ∈ sentence_indicators, p ∉ text := by
  rw [← Bool.not_eq_true]
  simp [containsCh, List.any_eq_true]

/-- Claim C9: `is_content_meaningful` returns `false` exactly when the
trimmed text is shorter than 50 characters, or its re-trimmed form has at
most 2 characters, or strictly more than 30 percent of the 8 keyword
phrases occur in the lowercased trimmed text, or tab, newline and space
make up strictly more than 70 percent of the raw characters, or none of the
characters `. ! ? ; :` occurs; a rejected segment leaves the merge state
untouched. -/
theorem claim_C9 :
    (∀ text : Text,
      (is_content_meaningful text = some false ↔
        (pyStrip (text.map Char.toLower)).length < 50 ∨
        (pyStrip (pyStrip (text.map Char.toLower))).length ≤ 2 ∨
        2 < (toc_indicators.filter
          (fun ind => isSubTxt ind (pyStrip (text.map Char.toLower)))).length ∨
        7 * text.length <
          10 * (countCh '\t' text + countCh '\n' text + countCh ' ' text) ∨
        (∀ p ∈ sentence_indicators, p ∉ text))) ∧
    (∀ (tc : Text → Nat) (acc : List Text × Text × Nat) (chunk : Text),
      is_content_meaningful chunk = some false → mscStep tc acc chunk = acc) := by
  constructor
  · intro text
    have hlen8 : toc_indicators.length = 8 := rfl
    simp only [is_content_meaningful]
    split_ifs with hA hB hC hlen hD
    · exact iff_of_true rfl (Or.inl hA)
    · exact iff_of_true rfl (Or.inr (Or.inl hB))
    · exact iff_of_true rfl (Or.inr (Or.inr (Or.inl (by omega))))
    · exfalso
      apply hA
      have h0 : text = [] := List.length_eq_zero.mp hlen
      subst h0
      decide
    · exact iff_of_true rfl (Or.inr (Or.inr (Or.inr (Or.inl hD))))
    · rw [Option.some.injEq]
      constructor
      · intro hany
        exact Or.inr (Or.inr (Or.inr (Or.inr (noPunct_iff.mp hany))))
      · intro hor
        rcases hor with h | h | h | h | h
        · exact absurd h hA
        · exact absurd h hB
        · exact absurd h (by omega)
        · exact absurd h hD
        · exact noPunct_iff.mpr h
  · intro tc acc chunk h
    exact mscStep_skip tc acc chunk (by rw [h]; simp)

/-- Witness for Claim C9: a concrete too-short segment is rejected and
leaves a concrete merge state untouched. -/
theorem claim_C9_witness :
    mscStep tcQ ([textTok550], textTok30, 30) shortText =
      ([textTok550], textTok30, 30) :=
  claim_C9.2 tcQ ([textTok550], textTok30, 30) shortText (by decide)

/-- Claim C10: `is_content_meaningful` is total; the division by
`text.length` is reached only behind the 50-character guard, which forces
the text to be nonempty, so the `none` (Python `ZeroDivisionError`) branch
is unreachable. -/
theorem claim_C10 : ∀ text : Text, (is_content_meaningful text).isSome = true := by
  intro text
  simp only [is_content_meaningful]
  split_ifs with hA hB hC hlen hD
  · rfl
  · rfl
  · rfl
  · exfalso
    apply hA
    have h0 : text = [] := List.length_eq_zero.mp hlen
    subst h0
    decide
  · rfl
  · rfl

/-- Counterexample to Claim C2 as stated: for the input text `"a. a"` the
split produces the two fragments `"a"` and `"a"`; the first (non-final)
fragment is left without a period, because the code compares each stripped
fragment against the raw last element of the split list and skips the
append on equality.  So it is not the case that the period is re-appended
to every fragment except the last. -/
theorem claim_C2_counterexample :
    processedSentences ['a', '.', ' ', 'a'] = [['a'], ['a']] ∧
      endsWithDot ['a'] = false := by
  constructor
  · decide
  · decide

/-- Claim C2 (amended): after splitting on `". "`, each fragment is
stripped, and the delimiter's period is appended exactly to those nonempty
stripped fragments that do not already end with `'.'` and are not equal to
the raw last element of the split list; hence a processed fragment ends
with `'.'` iff its stripped form already ended with `'.'` or differs from
the raw last element (so a non-final fragment equal to the last element
keeps no period, and the final fragment can receive one). -/
theorem claim_C2_amended (text raw : Text) (hmem : raw ∈ splitOnDS text)
    (hne : pyStrip raw ≠ []) :
    (endsWithDot (normalizeSentence ((splitOnDS text).getLastD []) raw) = true ↔
      (endsWithDot (pyStrip raw) = true ∨
        pyStrip raw ≠ (splitOnDS text).getLastD [])) := by
  simp only [normalizeSentence]
  by_cases h1 : endsWithDot (pyStrip raw) = false
  · by_cases h2 : pyStrip raw ≠ (splitOnDS text).getLastD []
    · rw [if_pos ⟨h1, h2⟩]
      exact iff_of_true (by simp [endsWithDot, List.getLast?_concat]) (Or.inr h2)
    · rw [if_neg (fun hx => h2 hx.2)]
      exact iff_of_false (by simp [h1])
        (fun hor => hor.elim (fun hx => by simp [h1] at hx) h2)
  · have h1' : endsWithDot (pyStrip raw) = true := by
      revert h1
      cases endsWithDot (pyStrip raw) <;> simp
    rw [if_neg (fun hx => by rw [h1'] at hx; exact absurd hx.1 (by decide))]
    exact iff_of_true h1' (Or.inl h1')

/-- Witness for Claim C2 (amended): in the text `"hi. yo"` the non-final
fragment `"hi"` differs from the last raw fragment, so the period is
appended. -/
theorem claim_C2_witness :
    endsWithDot (normalizeSentence
      ((splitOnDS ['h', 'i', '.', ' ', 'y', 'o']).getLastD []) ['h', 'i']) = true :=
  (claim_C2_amended ['h', 'i', '.', ' ', 'y', 'o'] ['h', 'i'] (by decide)
    (by decide)).mpr (Or.inr (by decide))

/-- Claim C4 (Scenario B): for five meaningful segments with token counts
30, 45, 550, 60, 900, the output is exactly the 550-token chunk followed by
the sub-chunks that `split_large_chunk` produces from the 900-token
segment; the 30-, 45- and 60-token segments contribute to no output chunk,
so (provided their text does not coincidentally occur inside the surviving
chunks) their text appears in no output chunk. -/
theorem claim_C4 (tc : Text → Nat) (s1 s2 s3 s4 s5 : Text)
    (hm1 : is_content_meaningful s1 = some true)
    (hm2 : is_content_meaningful s2 = some true)
    (hm3 : is_content_meaningful s3 = some true)
    (hm4 : is_content_meaningful s4 = some true)
    (hm5 : is_content_meaningful s5 = some true)
    (ht1 : tc s1 = 30) (ht2 : tc s2 = 45) (ht3 : tc s3 = 550)
    (ht4 : tc s4 = 60) (ht5 : tc s5 = 900) :
    merge_small_chunks tc [s1, s2, s3, s4, s5] = s3 :: split_large_chunk tc s5 ∧
    (∀ x ∈ [s1, s2, s4], isSubTxt x s3 = false →
      (∀ c ∈ split_large_chunk tc s5, isSubTxt x c = false) →
      ∀ c ∈ merge_small_chunks tc [s1, s2, s3, s4, s5], isSubTxt x c = false) := by
  have hmain : merge_small_chunks tc [s1, s2, s3, s4, s5] =
      s3 :: split_large_chunk tc s5 := by
    rw [merge_small_chunks, if_neg (by simp), mscFold]
    rw [List.foldl_cons, mscStep_undersized tc [] [] 0 s1 hm1 (by rw [ht1]; decide),
      ht1, if_neg (show ¬ OPTIMAL_CHUNK_SIZE ≤ 0 + 30 by decide), if_pos rfl]
    rw [List.foldl_cons,
      mscStep_undersized tc [] s1 (0 + 30) s2 hm2 (by rw [ht2]; decide),
      ht2, if_neg (show ¬ OPTIMAL_CHUNK_SIZE ≤ 0 + 30 + 45 by decide),
      if_neg (meaningful_ne_nil hm1)]
    rw [List.foldl_cons,
      mscStep_standalone tc [] (s1 ++ ' ' :: s2) (0 + 30 + 45) s3 hm3
        (by rw [ht3]; decide) (by rw [ht3]; decide),
      if_neg (show ¬ ((s1 ++ ' ' :: s2) ≠ [] ∧ MIN_CHUNK_SIZE ≤ 0 + 30 + 45) from
        fun hc => absurd hc.2 (by decide))]
    rw [List.foldl_cons,
      mscStep_undersized tc ([] ++ [s3]) [] 0 s4 hm4 (by rw [ht4]; decide),
      ht4, if_neg (show ¬ OPTIMAL_CHUNK_SIZE ≤ 0 + 60 by decide), if_pos rfl]
    rw [List.foldl_cons,
      mscStep_oversized tc ([] ++ [s3]) s4 (0 + 60) s5 hm5 (by rw [ht5]; decide),
      if_neg (show ¬ (s4 ≠ [] ∧ MIN_CHUNK_SIZE ≤ 0 + 60) from
        fun hc => absurd hc.2 (by decide))]
    rw [List.foldl_nil, if_neg (show ¬ (([] : Text) ≠ [] ∧ MIN_CHUNK_SIZE ≤ 0)
      from fun hc => hc.1 rfl)]
    simp
  refine ⟨hmain, ?_⟩
  intro x hx h3 h5 c hc
  rw [hmain] at hc
  rcases List.mem_cons.mp hc with rfl | hc2
  · exact h3
  · exact h5 c hc2

/-- Witness for Claim C4: concrete Scenario B texts evaluate to the
550-token chunk followed by the split of the 900-token segment. -/
theorem claim_C4_witness :
    merge_small_chunks tcQ [textTok30, textTok45, textTok550, textTok60, textTok900] =
      textTok550 :: split_large_chunk tcQ textTok900 :=
  (claim_C4 tcQ textTok30 textTok45 textTok550 textTok60 textTok900
    (by decide) (by decide) (by decide) (by decide) (by decide)
    (by decide) (by decide) (by decide) (by decide) (by decide)).1

/-- One `merge_small_chunks` loop iteration only appends the chunks it
emits to the output and updates the buffer. -/
theorem mscStep_decomp (tc : Text → Nat) (out : List Text) (b : Text × Nat)
    (chunk : Text) :
    mscStep tc (out, b) chunk = (out ++ stepOut tc b chunk, stepBuf tc b chunk) := by
  rcases b with ⟨cur, ctok⟩
  simp only [mscStep, stepOut, stepBuf]
  split_ifs <;> simp [List.append_assoc]

/-- The loop of `merge_small_chunks` followed by the final flush equals the
initial output followed by the per-segment emissions in input order. -/
theorem foldl_emitAll (tc : Text → Nat) (cs : List Text) :
    ∀ (out : List Text) (b : Text × Nat),
      (if (cs.foldl (mscStep tc) (out, b)).2.1 ≠ [] ∧
          MIN_CHUNK_SIZE ≤ (cs.foldl (mscStep tc) (out, b)).2.2 then
        (cs.foldl (mscStep tc) (out, b)).1 ++
          [pyStrip (cs.foldl (mscStep tc) (out, b)).2.1]
      else (cs.foldl (mscStep tc) (out, b)).1) = out ++ emitAll tc b cs := by
  induction cs with
  | nil =>
    intro out b
    rw [List.foldl_nil, emitAll]
    split_ifs with h
    · rfl
    · simp
  | cons c cs ih =>
    intro out b
    rw [List.foldl_cons, mscStep_decomp tc out b c,
      ih (out ++ stepOut tc b c) (stepBuf tc b c), emitAll, List.append_assoc]

/-- Claim C5 (order preservation): the output of `merge_small_chunks` is
exactly the concatenation, in input order, of the chunks emitted while
processing each segment (so a merged chunk sits at its flush point,
interleaved with standalone and split chunks), and the surviving
standalone segments appear in the output as a sublist in their input
order. -/
theorem claim_C5 :
    (∀ (tc : Text → Nat) (chunks : List Text),
      merge_small_chunks tc chunks = emitAll tc ([], 0) chunks) ∧
    (∀ (tc : Text → Nat) (chunks : List Text),
      List.Sublist (survivors tc chunks) (merge_small_chunks tc chunks)) := by
  have hmain : ∀ (tc : Text → Nat) (chunks : List Text),
      merge_small_chunks tc chunks = emitAll tc ([], 0) chunks := by
    intro tc chunks
    by_cases hnil : chunks = []
    · subst hnil
      rw [merge_small_chunks, if_pos rfl, emitAll, if_neg (fun hc => hc.1 rfl)]
    · rw [merge_small_chunks, if_neg hnil, mscFold]
      have h := foldl_emitAll tc chunks [] ([], 0)
      rw [List.nil_append] at h
      exact h
  have hsub : ∀ (tc : Text → Nat) (cs : List Text) (b : Text × Nat),
      List.Sublist (survivors tc cs) (emitAll tc b cs) := by
    intro tc cs
    induction cs with
    | nil => intro b; exact List.nil_sublist _
    | cons c cs ih =>
      intro b
      rw [emitAll]
      by_cases hc : is_content_meaningful c = some true ∧
          MIN_CHUNK_SIZE ≤ tc c ∧ tc c ≤ MAX_CHUNK_SIZE
      · have hsurv : survivors tc (c :: cs) = c :: survivors tc cs := by
          rw [survivors, List.filter_cons, if_pos (decide_eq_true hc)]
          rfl
        have hso : stepOut tc b c =
            (if b.1 ≠ [] ∧ MIN_CHUNK_SIZE ≤ b.2 then [pyStrip b.1] else []) ++ [c] := by
          rw [stepOut, if_neg (by simp [hc.1]), if_pos ⟨hc.2.1, hc.2.2⟩]
        rw [hsurv, hso, List.append_assoc]
        exact List.Sublist.trans (List.Sublist.cons₂ c (ih (stepBuf tc b c)))
          (List.sublist_append_right _ _)
      · have hsurv : survivors tc (c :: cs) = survivors tc cs := by
          rw [survivors, List.filter_cons, if_neg (by simp [hc])]
          rfl
        rw [hsurv]
        exact List.Sublist.trans (ih (stepBuf tc b c))
          (List.sublist_append_right _ _)
  exact ⟨hmain, fun tc chunks => (hmain tc chunks) ▸ hsub tc chunks ([], 0)⟩

/-! ### Branch lemmas for the split loop body -/

theorem slcStep_empty (tc : Text → Nat) (last : Text) (acc : List Text × Text)
    (raw : Text) (h : pyStrip raw = []) : slcStep tc last acc raw = acc := by
  simp only [slcStep]
  rw [if_pos h]

theorem slcStep_take (tc : Text → Nat) (last : Text) (chunks : List Text) (cur : Text)
    (raw : Text) (h : ¬ pyStrip raw = [])
    (h2 : tc (if cur = [] then normalizeSentence last raw
      else cur ++ ' ' :: normalizeSentence last raw) ≤ OPTIMAL_CHUNK_SIZE) :
    slcStep tc last (chunks, cur) raw =
      (chunks, if cur = [] then normalizeSentence last raw
        else cur ++ ' ' :: normalizeSentence last raw) := by
  simp only [slcStep]
  rw [if_neg h, if_pos h2]

theorem slcStep_flush (tc : Text → Nat) (last : Text) (chunks : List Text) (cur : Text)
    (raw : Text) (h : ¬ pyStrip raw = [])
    (h2 : ¬ tc (if cur = [] then normalizeSentence last raw
      else cur ++ ' ' :: normalizeSentence last raw) ≤ OPTIMAL_CHUNK_SIZE)
    (h3 : cur ≠ [] ∧ MIN_CHUNK_SIZE ≤ tc cur) :
    slcStep tc last (chunks, cur) raw =
      (chunks ++ [pyStrip cur], normalizeSentence last raw) := by
  simp only [slcStep]
  rw [if_neg h, if_neg h2, if_pos h3]

theorem slcStep_drop (tc : Text → Nat) (last : Text) (chunks : List Text) (cur : Text)
    (raw : Text) (h : ¬ pyStrip raw = [])
    (h2 : ¬ tc (if cur = [] then normalizeSentence last raw
      else cur ++ ' ' :: normalizeSentence last raw) ≤ OPTIMAL_CHUNK_SIZE)
    (h3 : ¬ (cur ≠ [] ∧ MIN_CHUNK_SIZE ≤ tc cur)) :
    slcStep tc last (chunks, cur) raw = (chunks, normalizeSentence last raw) := by
  simp only [slcStep]
  rw [if_neg h, if_neg h2, if_neg h3]

/-- A nonempty-stripping fragment of the split list yields its processed
form as a member of `processedOf`. -/
theorem mem_processedOf {sentences : List Text} {raw : Text} (hmem : raw ∈ sentences)
    (hne : ¬ pyStrip raw = []) :
    normalizeSentence (sentences.getLastD []) raw ∈ processedOf sentences := by
  rw [processedOf]
  exact List.mem_map_of_mem _ (List.mem_filter.mpr ⟨hmem, by simp [hne]⟩)

/-- Invariant of the `split_large_chunk` loop: every emitted sub-chunk has
at least `MIN_CHUNK_SIZE` tokens and is within `OPTIMAL_CHUNK_SIZE` unless
it is (the stripped form of) a single processed sentence fragment; the
running sub-chunk is empty, within `OPTIMAL_CHUNK_SIZE`, or a single
processed fragment. -/
theorem slc_inv (tc : Text → Nat) (Hstrip : ∀ s, tc (pyStrip s) = tc s)
    (sentences : List Text) :
    ∀ rest : List Text, (∀ r ∈ rest, r ∈ sentences) →
    ∀ (chunks : List Text) (cur : Text),
      (∀ c ∈ chunks, MIN_CHUNK_SIZE ≤ tc c ∧
        (tc c ≤ OPTIMAL_CHUNK_SIZE ∨ ∃ s ∈ processedOf sentences, c = pyStrip s)) →
      (cur = [] ∨ tc cur ≤ OPTIMAL_CHUNK_SIZE ∨ cur ∈ processedOf sentences) →
      ((∀ c ∈ (rest.foldl (slcStep tc (sentences.getLastD [])) (chunks, cur)).1,
          MIN_CHUNK_SIZE ≤ tc c ∧
          (tc c ≤ OPTIMAL_CHUNK_SIZE ∨ ∃ s ∈ processedOf sentences, c = pyStrip s)) ∧
        ((rest.foldl (slcStep tc (sentences.getLastD [])) (chunks, cur)).2 = [] ∨
          tc (rest.foldl (slcStep tc (sentences.getLastD [])) (chunks, cur)).2 ≤
            OPTIMAL_CHUNK_SIZE ∨
          (rest.foldl (slcStep tc (sentences.getLastD [])) (chunks, cur)).2 ∈
            processedOf sentences)) := by
  intro rest
  induction rest with
  | nil => intro _ chunks cur hch hcur; exact ⟨hch, hcur⟩
  | cons raw rest ih =>
    intro hrest chunks cur hch hcur
    rw [List.foldl_cons]
    by_cases hemp : pyStrip raw = []
    · rw [slcStep_empty tc _ _ raw hemp]
      exact ih (fun r hr => hrest r (by simp [hr])) chunks cur hch hcur
    · have hsin : normalizeSentence (sentences.getLastD []) raw ∈ processedOf sentences :=
        mem_processedOf (hrest raw (by simp)) hemp
      by_cases h2 : tc (if cur = [] then normalizeSentence (sentences.getLastD []) raw
          else cur ++ ' ' :: normalizeSentence (sentences.getLastD []) raw) ≤
          OPTIMAL_CHUNK_SIZE
      · rw [slcStep_take tc _ chunks cur raw hemp h2]
        exact ih (fun r hr => hrest r (by simp [hr])) chunks _ hch (Or.inr (Or.inl h2))
      · by_cases h3 : cur ≠ [] ∧ MIN_CHUNK_SIZE ≤ tc cur
        · rw [slcStep_flush tc _ chunks cur raw hemp h2 h3]
          refine ih (fun r hr => hrest r (by simp [hr])) _ _ ?_ (Or.inr (Or.inr hsin))
          intro c hcmem
          rcases List.mem_append.mp hcmem with hin | hnew
          · exact hch c hin
          · have hceq : c = pyStrip cur := by simpa using hnew
            subst hceq
            refine ⟨by rw [Hstrip]; exact h3.2, ?_⟩
            rcases hcur with hnil | hopt | hps
            · exact absurd hnil h3.1
            · exact Or.inl (by rw [Hstrip]; exact hopt)
            · exact Or.inr ⟨cur, hps, rfl⟩
        · rw [slcStep_drop tc _ chunks cur raw hemp h2 h3]
          exact ih (fun r hr => hrest r (by simp [hr])) chunks _ hch
            (Or.inr (Or.inr hsin))

/-- Bounds for `split_large_chunk`: every emitted sub-chunk has at least
`MIN_CHUNK_SIZE` tokens, and at most `OPTIMAL_CHUNK_SIZE` unless it is the
stripped form of a single processed sentence fragment. -/
theorem split_bounds (tc : Text → Nat) (Hstrip : ∀ s, tc (pyStrip s) = tc s)
    (text : Text) :
    ∀ c ∈ split_large_chunk tc text, MIN_CHUNK_SIZE ≤ tc c ∧
      (tc c ≤ OPTIMAL_CHUNK_SIZE ∨ ∃ s ∈ processedSentences text, c = pyStrip s) := by
  intro c hc
  simp only [processedSentences]
  have hinv := slc_inv tc Hstrip (splitOnDS text) (splitOnDS text) (fun r hr => hr)
    [] [] (by simp) (Or.inl rfl)
  simp only [split_large_chunk] at hc
  set r := (splitOnDS text).foldl (slcStep tc ((splitOnDS text).getLastD [])) ([], [])
    with hrdef
  by_cases hfin : r.2 ≠ [] ∧ MIN_CHUNK_SIZE ≤ tc r.2
  · rw [if_pos hfin] at hc
    rcases List.mem_append.mp hc with hin | hnew
    · exact hinv.1 c hin
    · have hceq : c = pyStrip r.2 := by simpa using hnew
      subst hceq
      refine ⟨by rw [Hstrip]; exact hfin.2, ?_⟩
      rcases hinv.2 with hnil | hopt | hps
      · exact absurd hnil hfin.1
      · exact Or.inl (by rw [Hstrip]; exact hopt)
      · exact Or.inr ⟨r.2, hps, rfl⟩
  · rw [if_neg hfin] at hc
    exact hinv.1 c hc

/-- Invariant of the `merge_small_chunks` loop: every emitted chunk has at
least `MIN_CHUNK_SIZE` tokens and at most `MAX_CHUNK_SIZE` unless it is a
single-sentence sub-chunk of an oversized input segment; the buffer is
empty with a zero counter, or nonempty with an accurate counter strictly
below `OPTIMAL_CHUNK_SIZE`. -/
theorem msc_inv (tc : Text → Nat)
    (Hjoin : ∀ a b : Text, tc (a ++ ' ' :: b) = tc a + tc b)
    (Hstrip : ∀ s, tc (pyStrip s) = tc s) (chunksFull : List Text) :
    ∀ rest : List Text, (∀ r ∈ rest, r ∈ chunksFull) →
    ∀ (out : List Text) (cur : Text) (ctok : Nat),
      (∀ c ∈ out, MIN_CHUNK_SIZE ≤ tc c ∧
        (tc c ≤ MAX_CHUNK_SIZE ∨ ∃ s ∈ chunksFull, MAX_CHUNK_SIZE < tc s ∧
          ∃ u ∈ processedSentences s, c = pyStrip u)) →
      ((cur = [] ∧ ctok = 0) ∨
        (cur ≠ [] ∧ tc cur = ctok ∧ ctok < OPTIMAL_CHUNK_SIZE)) →
      ((∀ c ∈ (rest.foldl (mscStep tc) (out, cur, ctok)).1,
          MIN_CHUNK_SIZE ≤ tc c ∧
          (tc c ≤ MAX_CHUNK_SIZE ∨ ∃ s ∈ chunksFull, MAX_CHUNK_SIZE < tc s ∧
            ∃ u ∈ processedSentences s, c = pyStrip u)) ∧
        (((rest.foldl (mscStep tc) (out, cur, ctok)).2.1 = [] ∧
            (rest.foldl (mscStep tc) (out, cur, ctok)).2.2 = 0) ∨
          ((rest.foldl (mscStep tc) (out, cur, ctok)).2.1 ≠ [] ∧
            tc (rest.foldl (mscStep tc) (out, cur, ctok)).2.1 =
              (rest.foldl (mscStep tc) (out, cur, ctok)).2.2 ∧
            (rest.foldl (mscStep tc) (out, cur, ctok)).2.2 <
              OPTIMAL_CHUNK_SIZE))) := by
  have hOM : OPTIMAL_CHUNK_SIZE ≤ MAX_CHUNK_SIZE := by decide
  have hMO : MIN_CHUNK_SIZE ≤ OPTIMAL_CHUNK_SIZE := by decide
  have hSum : OPTIMAL_CHUNK_SIZE + MIN_CHUNK_SIZE ≤ MAX_CHUNK_SIZE := by decide
  intro rest
  induction rest with
  | nil => intro _ out cur ctok hout hbuf; exact ⟨hout, hbuf⟩
  | cons chunk rest ih =>
    intro hrest out cur ctok hout hbuf
    rw [List.foldl_cons]
    by_cases hm : is_content_meaningful chunk = some true
    · have hflushed : ∀ hcond : cur ≠ [] ∧ MIN_CHUNK_SIZE ≤ ctok,
          MIN_CHUNK_SIZE ≤ tc (pyStrip cur) ∧
          (tc (pyStrip cur) ≤ MAX_CHUNK_SIZE ∨ ∃ s ∈ chunksFull,
            MAX_CHUNK_SIZE < tc s ∧ ∃ u ∈ processedSentences s,
              pyStrip cur = pyStrip u) := by
        intro hcond
        rcases hbuf with ⟨hnil, _⟩ | ⟨_, htc, hlt⟩
        · exact absurd hnil hcond.1
        · rw [Hstrip, htc]
          exact ⟨hcond.2, Or.inl (by omega)⟩
      have houtFlush : ∀ c ∈ (if cur ≠ [] ∧ MIN_CHUNK_SIZE ≤ ctok then
          out ++ [pyStrip cur] else out), MIN_CHUNK_SIZE ≤ tc c ∧
          (tc c ≤ MAX_CHUNK_SIZE ∨ ∃ s ∈ chunksFull, MAX_CHUNK_SIZE < tc s ∧
            ∃ u ∈ processedSentences s, c = pyStrip u) := by
        by_cases hcond : cur ≠ [] ∧ MIN_CHUNK_SIZE ≤ ctok
        · rw [if_pos hcond]
          intro c hcmem
          rcases List.mem_append.mp hcmem with hin | hnew
          · exact hout c hin
          · have hceq : c = pyStrip cur := by simpa using hnew
            subst hceq
            exact hflushed hcond
        · rw [if_neg hcond]
          exact hout
      by_cases h1 : MIN_CHUNK_SIZE ≤ tc chunk ∧ tc chunk ≤ MAX_CHUNK_SIZE
      · rw [mscStep_standalone tc out cur ctok chunk hm h1.1 h1.2]
        refine ih (fun r hr => hrest r (by simp [hr])) _ _ _ ?_ (Or.inl ⟨rfl, rfl⟩)
        intro c hcmem
        rcases List.mem_append.mp hcmem with hin | hnew
        · exact houtFlush c hin
        · have hceq : c = chunk := by simpa using hnew
          subst hceq
          exact ⟨h1.1, Or.inl h1.2⟩
      · by_cases h2 : tc chunk < MIN_CHUNK_SIZE
        · rw [mscStep_undersized tc out cur ctok chunk hm h2]
          have hne : (if cur = [] then chunk else cur ++ ' ' :: chunk) ≠ [] := by
            by_cases hcur : cur = []
            · rw [if_pos hcur]; exact meaningful_ne_nil hm
            · rw [if_neg hcur]; simp
          have htcur : tc (if cur = [] then chunk else cur ++ ' ' :: chunk) =
              ctok + tc chunk := by
            rcases hbuf with ⟨hnil, hzero⟩ | ⟨hcne, htc, _⟩
            · rw [if_pos hnil, hzero, Nat.zero_add]
            · rw [if_neg hcne, Hjoin, htc]
          by_cases h3 : OPTIMAL_CHUNK_SIZE ≤ ctok + tc chunk
          · rw [if_pos h3]
            refine ih (fun r hr => hrest r (by simp [hr])) _ _ _ ?_ (Or.inl ⟨rfl, rfl⟩)
            intro c hcmem
            rcases List.mem_append.mp hcmem with hin | hnew
            · exact hout c hin
            · have hceq : c = pyStrip (if cur = [] then chunk
                  else cur ++ ' ' :: chunk) := by simpa using hnew
              subst hceq
              rw [Hstrip, htcur]
              have hctok : ctok < OPTIMAL_CHUNK_SIZE := by
                rcases hbuf with ⟨_, hzero⟩ | ⟨_, _, hlt⟩
                · omega
                · exact hlt
              exact ⟨by omega, Or.inl (by omega)⟩
          · rw [if_neg h3]
            refine ih (fun r hr => hrest r (by simp [hr])) _ _ _ hout ?_
            exact Or.inr ⟨hne, htcur, by omega⟩
        · have h4 : MAX_CHUNK_SIZE < tc chunk := by omega
          rw [mscStep_oversized tc out cur ctok chunk hm h4]
          refine ih (fun r hr => hrest r (by simp [hr])) _ _ _ ?_ (Or.inl ⟨rfl, rfl⟩)
          intro c hcmem
          rcases List.mem_append.mp hcmem with hin | hnew
          · exact houtFlush c hin
          · have hsplit := split_bounds tc Hstrip chunk c hnew
            refine ⟨hsplit.1, ?_⟩
            rcases hsplit.2 with hopt | ⟨u, hu, hcu⟩
            · exact Or.inl (by omega)
            · exact Or.inr ⟨chunk, hrest chunk (by simp), h4, u, hu, hcu⟩
    · rw [mscStep_skip tc _ chunk hm]
      exact ih (fun r hr => hrest r (by simp [hr])) out cur ctok hout hbuf

/-- Claim C3: every chunk emitted by `split_large_chunk` has a token count
of at least `MIN_CHUNK_SIZE` and of at most `OPTIMAL_CHUNK_SIZE` unless it
is (the stripped form of) a single sentence fragment; every chunk emitted
by `merge_small_chunks` has a token count of at least `MIN_CHUNK_SIZE` and
of at most `MAX_CHUNK_SIZE` unless it is a single-sentence sub-chunk of an
oversized segment.  The tokenizer is assumed to be additive across the
space-joins performed by the code and invariant under stripping. -/
theorem claim_C3 (tc : Text → Nat)
    (Hjoin : ∀ a b : Text, tc (a ++ ' ' :: b) = tc a + tc b)
    (Hstrip : ∀ s, tc (pyStrip s) = tc s) :
    (∀ text : Text, ∀ c ∈ split_large_chunk tc text, MIN_CHUNK_SIZE ≤ tc c ∧
      (tc c ≤ OPTIMAL_CHUNK_SIZE ∨ ∃ s ∈ processedSentences text, c = pyStrip s)) ∧
    (∀ chunks : List Text, ∀ c ∈ merge_small_chunks tc chunks,
      MIN_CHUNK_SIZE ≤ tc c ∧
      (tc c ≤ MAX_CHUNK_SIZE ∨ ∃ s ∈ chunks, MAX_CHUNK_SIZE < tc s ∧
        ∃ u ∈ processedSentences s, c = pyStrip u)) := by
  have hOM : OPTIMAL_CHUNK_SIZE ≤ MAX_CHUNK_SIZE := by decide
  refine ⟨split_bounds tc Hstrip, ?_⟩
  intro chunks c hc
  by_cases hnil : chunks = []
  · subst hnil
    rw [merge_small_chunks, if_pos rfl] at hc
    exact absurd hc (List.not_mem_nil c)
  · rw [merge_small_chunks, if_neg hnil, mscFold] at hc
    have hinv := msc_inv tc Hjoin Hstrip chunks chunks (fun r hr => hr) [] [] 0
      (by simp) (Or.inl ⟨rfl, rfl⟩)
    set r := chunks.foldl (mscStep tc) ([], [], 0) with hrdef
    by_cases hfin : r.2.1 ≠ [] ∧ MIN_CHUNK_SIZE ≤ r.2.2
    · rw [if_pos hfin] at hc
      rcases List.mem_append.mp hc with hin | hnew
      · exact hinv.1 c hin
      · have hceq : c = pyStrip r.2.1 := by simpa using hnew
        subst hceq
        rcases hinv.2 with ⟨hn, _⟩ | ⟨_, htc, hlt⟩
        · exact absurd hn hfin.1
        · rw [Hstrip, htc]
          exact ⟨hfin.2, Or.inl (by omega)⟩
    · rw [if_neg hfin] at hc
      exact hinv.1 c hc

/-- The counter `tokensByQ` is additive across a space-join. -/
theorem tokensByQ_join : ∀ a b : Text, tokensByQ (a ++ ' ' :: b) =
    tokensByQ a + tokensByQ b := by
  intro a b
  simp [tokensByQ, countCh, List.filter_append, List.filter_cons]

/-- The counter `tokensByQ` is invariant under stripping. -/
theorem tokensByQ_pyStrip : ∀ s, tokensByQ (pyStrip s) = tokensByQ s := by
  intro s
  have hp : ∀ x, isPyWs x = true → (x == 'q') = false := by
    intro x hx
    simp only [isPyWs, Bool.or_eq_true, beq_iff_eq] at hx
    rcases hx with (((((h | h) | h) | h) | h) | h) <;> subst h <;> decide
  simp only [tokensByQ, countCh]
  rw [filter_pyStrip _ hp]

/-- Witness for Claim C3: for the concrete counter `tokensByQ` and a
concrete standalone 100-token chunk, the emitted chunk satisfies the lower
bound. -/
theorem claim_C3_witness :
    MIN_CHUNK_SIZE ≤ tokensByQ textHundredQ ∧
      textHundredQ ∈ merge_small_chunks tokensByQ [textHundredQ] := by
  have hmem : textHundredQ ∈ merge_small_chunks tokensByQ [textHundredQ] := by decide
  exact ⟨((claim_C3 tokensByQ tokensByQ_join tokensByQ_pyStrip).2
    [textHundredQ] textHundredQ hmem).1, hmem⟩

example : is_content_meaningful [] = some false := by decide

example : splitOnDS ['a', '.', ' ', 'a'] = [['a'], ['a']] := by decide

example : processedSentences ['a', '.', ' ', 'a'] = [['a'], ['a']] := by decide

end LumaRAG
